import Mathlib

/-!
# Member<T>: the strong link from a native owner to a script-heap object

A shallow embedding of `bridge/bindings/qjs/cppgc/member.h`.

* Pointers (`T*`, `JSRuntime*`) are `Option Nat`, `none` being `nullptr`.
* The engine and the collaborators of `Member` (QuickJS reference counting,
  `ScriptWrappable`, `ExecutingContext`, `MutationScope`) are external to the
  header. Every call `Member` makes on them is appended to `World.trace` with
  its actual arguments, so that statements such as "issues exactly one
  `JS_FreeValue`" are statements about the trace.
* A failing `assert` is the result `none`.
* The operations on one Link take and return the `Member` record. The
  assignments between Links take the Links by address in a store
  `Nat → Member`, so that `other` may be `*this`.
-/

namespace kraken

/-- Modelled from the spec: the collection phases of the engine
(`qjs_engine_patch.h` is not part of the sources). The header branches on
`JS_GC_PHASE_DECREF` only; all other phases are treated alike. -/
inductive JSGCPhaseEnum where
  | JS_GC_PHASE_NONE
  | JS_GC_PHASE_DECREF
  | JS_GC_PHASE_REMOVE_CYCLES
deriving DecidableEq, Repr

/-- Modelled from the spec: the view of a `ScriptWrappable` that `Member`
uses (`script_wrappable.h` is not part of the sources): the getters
`ToQuickJSUnsafe()`, `ctx()`, `runtime()`, `GetExecutingContext()` and
`fresh()`. -/
structure ScriptWrappable where
  /-- `ToQuickJSUnsafe()`: the engine value. -/
  jsObject : Nat
  /-- `ctx()`: the `JSContext*`. -/
  ctx : Nat
  /-- `runtime()`: the `JSRuntime*`, `none` for `nullptr`. -/
  runtime : Option Nat
  /-- `GetExecutingContext()`: the `ExecutingContext*`. -/
  context : Nat
  /-- `fresh()`: true until the first `MakeOld()`. -/
  fresh : Bool
deriving DecidableEq, Repr

/-- The calls `Member` issues on its collaborators, with their arguments
(and, for the two queries whose answer selects a branch, the answer). -/
inductive Call where
  | JS_GetEnginePhase (rt : Nat)
  | JS_FreeValueRT (rt : Nat) (v : Nat)
  | HasMutationScope (context : Nat) (result : Bool)
  | RecordFree (context : Nat) (wrappable : Nat)
  | JS_FreeValue (ctx : Nat) (v : Nat)
  | JS_DupValue (ctx : Nat) (v : Nat)
  | fresh (p : Nat) (result : Bool)
  | MakeOld (p : Nat)
deriving DecidableEq, Repr

/-- Everything outside the `Member` object itself. -/
structure World where
  /-- The wrappable stored at each address. -/
  objects : Nat → ScriptWrappable
  /-- Per executing context: the pending frees of its active mutation scope,
  `none` when no scope is active (`HasMutationScope()` is false). -/
  scopes : Nat → Option (List Nat)
  /-- The engine phase oracle, per runtime. -/
  phase : Nat → JSGCPhaseEnum
  /-- The calls issued so far, oldest first. -/
  trace : List Call

/-- The fields of `Member<T>`. -/
structure Member where
  raw_ : Option Nat
  runtime_ : Option Nat
  inited_ : Bool
deriving DecidableEq, Repr

/-- Append one call to the trace. -/
def World.log (w : World) (c : Call) : World :=
  { w with trace := w.trace ++ [c] }

/-- Modelled from the spec: `ScriptWrappable::MakeOld()` (not part of the
sources) "idempotently flips freshness to false". -/
def MakeOld (w : World) (p : Nat) : World :=
  { w with
    objects := fun q => if q = p then { w.objects q with fresh := false } else w.objects q
    trace := w.trace ++ [Call.MakeOld p] }

/-- Modelled from the spec: `MutationScope::RecordFree` (`mutation_scope.h`
is not part of the sources) "appends to pendingFrees". -/
def RecordFree (w : World) (context : Nat) (wrappable : Nat) : World :=
  { w with
    scopes := fun c =>
      if c = context then (w.scopes c).map (fun pending => pending ++ [wrappable])
      else w.scopes c
    trace := w.trace ++ [Call.RecordFree context wrappable] }

/-- `Member() = default`: the field initialisers
`raw_{nullptr}`, `runtime_{nullptr}`, `inited_{false}`. -/
def Member.default_ctor : Member :=
  { raw_ := none, runtime_ := none, inited_ := false }

/-- `T* Get() const`. -/
def Member.Get (m : Member) : Option Nat := m.raw_

/-- `void Clear()`. -/
def Member.Clear (m : Member) (w : World) : Member × World :=
  match m.raw_ with
  | none => (m, w)
  | some wrappable =>
    let o := w.objects wrappable
    let has := (w.scopes o.context).isSome
    let w1 := w.log (Call.HasMutationScope o.context has)
    let w2 := if has then RecordFree w1 o.context wrappable
              else w1.log (Call.JS_FreeValue o.ctx o.jsObject)
    ({ m with raw_ := none }, w2)

/-- `void SetRaw(T* p)`; `none` when `assert(inited_)` fails. -/
def Member.SetRaw (m : Member) (w : World) (p : Option Nat) : Option (Member × World) :=
  if m.inited_ then
    match p with
    | none => some ({ m with raw_ := none }, w)
    | some a =>
      let o := w.objects a
      let m1 := { m with runtime_ := o.runtime }
      let w1 := w.log (Call.fresh a o.fresh)
      let w2 := if !o.fresh then w1.log (Call.JS_DupValue o.ctx o.jsObject) else w1
      let w3 := MakeOld w2 a
      some ({ m1 with raw_ := some a }, w3)
  else none

/-- `Member(T* ptr)`. -/
def Member.ctor (ptr : Option Nat) (w : World) : Option (Member × World) :=
  Member.SetRaw { Member.default_ctor with inited_ := true } w ptr

/-- `~Member()`; `none` when `assert(runtime_ != nullptr)` fails. -/
def Member.dtor (m : Member) (w : World) : Option World :=
  match m.raw_ with
  | none => some w
  | some raw =>
    match m.runtime_ with
    | none => none
    | some rt =>
      let w1 := w.log (Call.JS_GetEnginePhase rt)
      if w.phase rt = JSGCPhaseEnum.JS_GC_PHASE_DECREF then
        some (w1.log (Call.JS_FreeValueRT rt (w.objects raw).jsObject))
      else some w1

/-- `void Initialize(T* p)`. -/
def Member.Initialize (m : Member) (w : World) (p : Option Nat) : Member × World :=
  let m0 := { m with inited_ := true }
  match p with
  | none => (m0, w)
  | some a =>
    ({ m0 with raw_ := some a, runtime_ := (w.objects a).runtime }, MakeOld w a)

/-- `Member& operator=(T* other)`. -/
def Member.assign_ptr (m : Member) (w : World) (other : Option Nat) :
    Option (Member × World) :=
  let (m1, w1) := m.Clear w
  m1.SetRaw w1 other

/-- `Member& operator=(std::nullptr_t)`. -/
def Member.assign_nullptr (m : Member) (w : World) : Option (Member × World) :=
  some (m.Clear w)

/-- Store `m` at the address `a`. -/
def setLink (links : Nat → Member) (a : Nat) (m : Member) : Nat → Member :=
  fun b => if b = a then m else links b

/-- `Member& operator=(Member&& other) noexcept`, `*this` being the Link at
the address `self` and `other` the Link at the address `other`, which may be
the same address: `operator=(other.Get())` writes `*this`, and `other.Clear()`
then reads and writes `other` in the store so updated. -/
def Member.assign_move (links : Nat → Member) (self other : Nat) (w : World) :
    Option ((Nat → Member) × World) :=
  match (links self).assign_ptr w (links other).Get with
  | none => none
  | some (m1, w1) =>
    let links1 := setLink links self m1
    let (other1, w2) := (links1 other).Clear w1
    some (setLink links1 other other1, w2)

/-- `Member& operator=(const Member& other)`: the two statements of its body
as written, which are those of the move assignment. The body calls the
non-const `Clear()` through a reference to const, so a conforming compiler
refuses to instantiate this overload; the definition is what the body does
where it is accepted. -/
def Member.assign_copy (links : Nat → Member) (self other : Nat) (w : World) :
    Option ((Nat → Member) × World) :=
  match (links self).assign_ptr w (links other).Get with
  | none => none
  | some (m1, w1) =>
    let links1 := setLink links self m1
    let (other1, w2) := (links1 other).Clear w1
    some (setLink links1 other other1, w2)

/-! ## Reading the trace -/

/-- A standard or runtime-level free of an engine value. -/
def Call.isFree : Call → Bool
  | Call.JS_FreeValue _ _ => true
  | Call.JS_FreeValueRT _ _ => true
  | _ => false

/-- Modelled from the spec: what one call does to the engine reference count
of the value `v` (the engine primitives are not part of the sources):
`JS_DupValue` adds one, `JS_FreeValue` and `JS_FreeValueRT` take one away. -/
def Call.refcountDelta (v : Nat) : Call → Int
  | Call.JS_DupValue _ u => if u = v then 1 else 0
  | Call.JS_FreeValue _ u => if u = v then -1 else 0
  | Call.JS_FreeValueRT _ u => if u = v then -1 else 0
  | _ => 0

/-- Net change of the engine reference count of `v` over a run of calls. -/
def refcountDelta (v : Nat) (calls : List Call) : Int :=
  (calls.map (Call.refcountDelta v)).sum

/-- What one call of a Link contributes to the reference counts it holds on
the value `v`: plus one for a consumed fresh reference (`fresh()` answered
true, so the increment was skipped) or a `JS_DupValue`; minus one for a
release issued directly or handed to the mutation scope. `value` gives the
engine value of the wrappable at each address. -/
def Call.claimDelta (value : Nat → Nat) (v : Nat) : Call → Int
  | Call.fresh p true => if value p = v then 1 else 0
  | Call.JS_DupValue _ u => if u = v then 1 else 0
  | Call.JS_FreeValue _ u => if u = v then -1 else 0
  | Call.JS_FreeValueRT _ u => if u = v then -1 else 0
  | Call.RecordFree _ q => if value q = v then -1 else 0
  | _ => 0

/-- Reference counts on `v` attributable to the Link that issued `calls`. -/
def attributable (value : Nat → Nat) (v : Nat) (calls : List Call) : Int :=
  (calls.map (Call.claimDelta value v)).sum

/-- The engine value of the wrappable at address `p`. -/
def World.valueOf (w : World) (p : Nat) : Nat := (w.objects p).jsObject

/-- Number of Links in `links` whose target is `p`. -/
def claimsOn (p : Nat) (links : List Member) : Nat :=
  links.countP (fun l => decide (l.Get = some p))

/-! ## Sequences of operations on one Link -/

/-- The Link `m` at address `0` next to one other Link, at every other
address. -/
def twoLinks (m other : Member) : Nat → Member :=
  fun a => if a = 0 then m else other

/-- The operations that change a Link after its construction. Of the
assignments between Links, `assign_copy other` and `assign_move other` are
`*this = other` for another Link `other`, `assigned_to target` is
`target = *this` for another Link `target`, which clears `*this`, and
`assign_self` is `*this = *this`. -/
inductive LinkOp where
  | Initialize (p : Option Nat)
  | assign_ptr (p : Option Nat)
  | assign_nullptr
  | assign_copy (other : Member)
  | assign_move (other : Member)
  | assigned_to (target : Member)
  | assign_self
  | Clear

/-- One operation on the Link `m`; `none` when an assertion fails. -/
def LinkOp.apply (op : LinkOp) (m : Member) (w : World) : Option (Member × World) :=
  match op with
  | LinkOp.Initialize p => some (m.Initialize w p)
  | LinkOp.assign_ptr p => m.assign_ptr w p
  | LinkOp.assign_nullptr => m.assign_nullptr w
  | LinkOp.assign_copy other =>
    (Member.assign_copy (twoLinks m other) 0 1 w).map (fun r => (r.1 0, r.2))
  | LinkOp.assign_move other =>
    (Member.assign_move (twoLinks m other) 0 1 w).map (fun r => (r.1 0, r.2))
  | LinkOp.assigned_to target =>
    (Member.assign_move (twoLinks m target) 1 0 w).map (fun r => (r.1 0, r.2))
  | LinkOp.assign_self =>
    (Member.assign_move (twoLinks m m) 0 0 w).map (fun r => (r.1 0, r.2))
  | LinkOp.Clear => some (m.Clear w)

/-- Raw-pointer assignments, null assignments and `Clear()`. -/
def LinkOp.isRawAssignOrClear : LinkOp → Bool
  | LinkOp.assign_ptr _ => true
  | LinkOp.assign_nullptr => true
  | LinkOp.Clear => true
  | _ => false

/-- The operations of `ops` in order, stopping at a failed assertion. -/
def runOps : List LinkOp → Member → World → Option (Member × World)
  | [], m, w => some (m, w)
  | op :: rest, m, w =>
    match op.apply m w with
    | none => none
    | some (m1, w1) => runOps rest m1 w1

/-! ## Invariants -/

/-- The runtime of the wrappable at address `p`. -/
def World.runtimeOf (w : World) (p : Nat) : Option Nat := (w.objects p).runtime

/-- The cached runtime of a Link with a target is the target's runtime. -/
def RuntimeCached (m : Member) (w : World) : Prop :=
  ∀ q, m.Get = some q → m.runtime_ = w.runtimeOf q

/-- The Link is initialised, its calls so far are `calls`, and they hold one
reference count on the value of its target and none on any other value. -/
def SingleClaim (value : Nat → Nat) (before : List Call) (m : Member) (w : World)
    (calls : List Call) : Prop :=
  m.inited_ = true ∧ w.trace = before ++ calls ∧ w.valueOf = value ∧
  ∀ v, attributable value v calls = (if m.Get.map value = some v then 1 else 0)

/-! ## Concrete worlds for the examples -/

/-- Every wrappable has value `100 + address`, context `7`, runtime `3`,
executing context `0` and is fresh; no mutation scope; phase `NONE`. -/
def exWorld : World :=
  { objects := fun p => { jsObject := 100 + p, ctx := 7, runtime := some 3,
                          context := 0, fresh := true }
    scopes := fun _ => none
    phase := fun _ => JSGCPhaseEnum.JS_GC_PHASE_NONE
    trace := [] }

/-- As `exWorld`, with an active and empty mutation scope on every context. -/
def exWorldScope : World :=
  { exWorld with scopes := fun _ => some [] }

/-- As `exWorld`, with every runtime in the decrement phase. -/
def exWorldDecref : World :=
  { exWorld with phase := fun _ => JSGCPhaseEnum.JS_GC_PHASE_DECREF }

/-- As `exWorld`, after every wrappable has been handed to a Link: none is
fresh. -/
def exWorldOld : World :=
  { exWorld with
    objects := fun p => { jsObject := 100 + p, ctx := 7, runtime := some 3,
                          context := 0, fresh := false } }

/-- A Link holding the wrappable at `p` of `exWorld`. -/
def exLink (p : Nat) : Member :=
  { raw_ := some p, runtime_ := some 3, inited_ := true }

/-- An initialised Link with no target. -/
def exEmpty : Member :=
  { raw_ := none, runtime_ := none, inited_ := true }

/-! ## Basic facts about `Clear` and `SetRaw` -/

theorem Clear_of_null (m : Member) (w : World) (h : m.raw_ = none) :
    m.Clear w = (m, w) := by
  simp [Member.Clear, h]

theorem Clear_of_scope (m : Member) (w : World) (p : Nat) (pending : List Nat)
    (h : m.raw_ = some p) (hs : w.scopes (w.objects p).context = some pending) :
    m.Clear w = ({ m with raw_ := none },
      RecordFree (w.log (Call.HasMutationScope (w.objects p).context true))
        (w.objects p).context p) := by
  simp [Member.Clear, h, hs, World.log]

theorem Clear_of_no_scope (m : Member) (w : World) (p : Nat)
    (h : m.raw_ = some p) (hs : w.scopes (w.objects p).context = none) :
    m.Clear w = ({ m with raw_ := none },
      (w.log (Call.HasMutationScope (w.objects p).context false)).log
        (Call.JS_FreeValue (w.objects p).ctx (w.objects p).jsObject)) := by
  simp [Member.Clear, h, hs, World.log]

theorem Clear_raw (m : Member) (w : World) : (m.Clear w).1.raw_ = none := by
  unfold Member.Clear
  split
  · assumption
  · rfl

theorem Clear_runtime (m : Member) (w : World) : (m.Clear w).1.runtime_ = m.runtime_ := by
  unfold Member.Clear
  split <;> rfl

theorem Clear_inited (m : Member) (w : World) : (m.Clear w).1.inited_ = m.inited_ := by
  unfold Member.Clear
  split <;> rfl

theorem Clear_objects (m : Member) (w : World) : (m.Clear w).2.objects = w.objects := by
  unfold Member.Clear
  split
  · rfl
  · simp only [RecordFree, World.log]
    split <;> rfl

theorem SetRaw_fresh (m : Member) (w : World) (p : Nat)
    (hi : m.inited_ = true) (hf : (w.objects p).fresh = true) :
    m.SetRaw w (some p) =
      some ({ raw_ := some p, runtime_ := (w.objects p).runtime, inited_ := true },
            MakeOld (w.log (Call.fresh p true)) p) := by
  simp [Member.SetRaw, hi, hf]

theorem SetRaw_old (m : Member) (w : World) (p : Nat)
    (hi : m.inited_ = true) (hf : (w.objects p).fresh = false) :
    m.SetRaw w (some p) =
      some ({ raw_ := some p, runtime_ := (w.objects p).runtime, inited_ := true },
            MakeOld ((w.log (Call.fresh p false)).log
              (Call.JS_DupValue (w.objects p).ctx (w.objects p).jsObject)) p) := by
  simp [Member.SetRaw, hi, hf]

theorem SetRaw_null (m : Member) (w : World) (hi : m.inited_ = true) :
    m.SetRaw w none = some ({ m with raw_ := none }, w) := by
  simp [Member.SetRaw, hi]

theorem SetRaw_uninit (m : Member) (w : World) (p : Option Nat) (hi : m.inited_ = false) :
    m.SetRaw w p = none := by
  simp [Member.SetRaw, hi]

theorem assign_ptr_eq (m : Member) (w : World) (q : Option Nat) :
    m.assign_ptr w q = (m.Clear w).1.SetRaw (m.Clear w).2 q := rfl

/-! ## The calls of `Clear` and `SetRaw`, and what they claim -/

theorem attributable_append (value : Nat → Nat) (v : Nat) (a b : List Call) :
    attributable value v (a ++ b) = attributable value v a + attributable value v b := by
  simp [attributable]

theorem MakeOld_valueOf (w : World) (p : Nat) : (MakeOld w p).valueOf = w.valueOf := by
  funext q
  simp only [World.valueOf, MakeOld]
  split <;> rfl

theorem Clear_valueOf (m : Member) (w : World) : (m.Clear w).2.valueOf = w.valueOf := by
  funext q
  simp only [World.valueOf, Clear_objects]

/-- The calls of `Clear()` release exactly the claim on the target's value. -/
theorem Clear_calls (m : Member) (w : World) :
    ∃ calls, (m.Clear w).2.trace = w.trace ++ calls ∧
      ∀ v, attributable w.valueOf v calls =
        -(if m.raw_.map w.valueOf = some v then 1 else 0) := by
  cases h : m.raw_ with
  | none =>
    refine ⟨[], ?_, ?_⟩
    · rw [Clear_of_null m w h]; simp
    · intro v; simp [attributable]
  | some p =>
    cases hs : w.scopes (w.objects p).context with
    | none =>
      refine ⟨[Call.HasMutationScope (w.objects p).context false,
               Call.JS_FreeValue (w.objects p).ctx (w.objects p).jsObject], ?_, ?_⟩
      · rw [Clear_of_no_scope m w p h hs]; simp [World.log]
      · intro v
        simp only [attributable, List.map, Call.claimDelta, List.sum_cons, List.sum_nil,
          Option.map, World.valueOf, Option.some.injEq]
        split_ifs <;> simp
    | some pending =>
      refine ⟨[Call.HasMutationScope (w.objects p).context true,
               Call.RecordFree (w.objects p).context p], ?_, ?_⟩
      · rw [Clear_of_scope m w p pending h hs]; simp [World.log, RecordFree]
      · intro v
        simp only [attributable, List.map, Call.claimDelta, List.sum_cons, List.sum_nil,
          Option.map, World.valueOf, Option.some.injEq]
        split_ifs <;> simp

/-- On an initialised Link `SetRaw(p)` succeeds, makes `p` the target, and its
calls acquire exactly one claim on the value of a non-null `p`. -/
theorem SetRaw_calls (m : Member) (w : World) (p : Option Nat) (hi : m.inited_ = true) :
    ∃ m1 w1 calls, m.SetRaw w p = some (m1, w1) ∧ m1.raw_ = p ∧ m1.inited_ = true ∧
      w1.trace = w.trace ++ calls ∧ w1.valueOf = w.valueOf ∧
      ∀ v, attributable w.valueOf v calls =
        (if p.map w.valueOf = some v then 1 else 0) := by
  cases p with
  | none =>
    refine ⟨_, _, [], SetRaw_null m w hi, rfl, hi, by simp, rfl, ?_⟩
    intro v; simp [attributable]
  | some a =>
    cases hf : (w.objects a).fresh with
    | true =>
      refine ⟨_, _, [Call.fresh a true, Call.MakeOld a], SetRaw_fresh m w a hi hf,
        rfl, rfl, by simp [MakeOld, World.log], ?_, ?_⟩
      · rw [MakeOld_valueOf]; rfl
      · intro v
        simp only [attributable, List.map, Call.claimDelta, List.sum_cons, List.sum_nil,
          Option.map, Option.some.injEq]
        split_ifs <;> simp
    | false =>
      refine ⟨_, _, [Call.fresh a false,
          Call.JS_DupValue (w.objects a).ctx (w.objects a).jsObject, Call.MakeOld a],
        SetRaw_old m w a hi hf, rfl, rfl, by simp [MakeOld, World.log], ?_, ?_⟩
      · rw [MakeOld_valueOf]; rfl
      · intro v
        simp only [attributable, List.map, Call.claimDelta, List.sum_cons, List.sum_nil,
          Option.map, World.valueOf, Option.some.injEq]
        split_ifs <;> simp

/-- On an initialised Link `operator=(T*)` succeeds; its calls first release
the claim on the old target, then acquire one on the new target. -/
theorem assign_ptr_calls (m : Member) (w : World) (p : Option Nat) (hi : m.inited_ = true) :
    ∃ m1 w1 calls, m.assign_ptr w p = some (m1, w1) ∧ m1.raw_ = p ∧ m1.inited_ = true ∧
      w1.trace = w.trace ++ calls ∧ w1.valueOf = w.valueOf ∧
      ∀ v, attributable w.valueOf v calls =
        -(if m.raw_.map w.valueOf = some v then 1 else 0) +
         (if p.map w.valueOf = some v then 1 else 0) := by
  obtain ⟨c1, t1, a1⟩ := Clear_calls m w
  have hc : (m.Clear w).1.inited_ = true := by rw [Clear_inited, hi]
  obtain ⟨m1, w1, c2, e, hr, hi1, t2, v2, a2⟩ := SetRaw_calls (m.Clear w).1 (m.Clear w).2 p hc
  rw [Clear_valueOf] at v2 a2
  refine ⟨m1, w1, c1 ++ c2, by rw [assign_ptr_eq, e], hr, hi1, ?_, v2, ?_⟩
  · rw [t2, t1, List.append_assoc]
  · intro v
    rw [attributable_append, a1, a2]

/-! ## Claims settled on a single operation -/

/-- C5 (no double free). For every Link with a non-null target `p`: the first
`Clear()` leaves `Get()` null and adds to the trace exactly the scope look-up
followed by one release, a `JS_FreeValue` on the target's context and value
when no mutation scope is active and a `RecordFree` of the target when one is;
an immediately following second `Clear()` changes neither the Link nor the
world, so it issues no call at all. -/
theorem Clear_twice (m : Member) (w : World) (p : Nat) (h : m.raw_ = some p) :
    (m.Clear w).1.Get = none ∧
    (w.scopes (w.objects p).context = none →
      (m.Clear w).2.trace = w.trace ++
        [Call.HasMutationScope (w.objects p).context false,
         Call.JS_FreeValue (w.objects p).ctx (w.objects p).jsObject]) ∧
    (∀ pending, w.scopes (w.objects p).context = some pending →
      (m.Clear w).2.trace = w.trace ++
        [Call.HasMutationScope (w.objects p).context true,
         Call.RecordFree (w.objects p).context p]) ∧
    (m.Clear w).1.Clear (m.Clear w).2 = m.Clear w := by
  refine ⟨Clear_raw m w, ?_, ?_, Clear_of_null _ _ (Clear_raw m w)⟩
  · intro hs
    rw [Clear_of_no_scope m w p h hs]
    simp [World.log]
  · intro pending hs
    rw [Clear_of_scope m w p pending h hs]
    simp [World.log, RecordFree]

theorem Clear_twice_witness :
    ((exLink 1).Clear exWorld).1.Get = none ∧
    ((exLink 1).Clear exWorld).2.trace =
      [Call.HasMutationScope 0 false, Call.JS_FreeValue 7 101] ∧
    ((exLink 1).Clear exWorldScope).2.trace =
      [Call.HasMutationScope 0 true, Call.RecordFree 0 1] ∧
    ((exLink 1).Clear exWorld).1.Clear ((exLink 1).Clear exWorld).2 =
      (exLink 1).Clear exWorld :=
  ⟨(Clear_twice (exLink 1) exWorld 1 rfl).1,
   (Clear_twice (exLink 1) exWorld 1 rfl).2.1 rfl,
   (Clear_twice (exLink 1) exWorldScope 1 rfl).2.2.1 [] rfl,
   (Clear_twice (exLink 1) exWorld 1 rfl).2.2.2⟩

/-- C4 (deferred free ordering). For every Link with a non-null target `X`
whose executing context `c` has an active mutation scope, `Clear()` sets the
target to null and adds to the trace exactly the scope look-up and one
`RecordFree` of `X` (so no `JS_FreeValue` and no `JS_FreeValueRT`), and `X` is
appended to the pending frees. Clearing three Links holding `X`, `Y`, `Z` of
that context in this order appends `X`, `Y`, `Z` in this order, and none of
the calls issued is a free. -/
theorem Clear_defers_in_order (mx my mz : Member) (w : World) (X Y Z c : Nat)
    (pending : List Nat)
    (hx : mx.raw_ = some X) (hy : my.raw_ = some Y) (hz : mz.raw_ = some Z)
    (cx : (w.objects X).context = c) (cy : (w.objects Y).context = c)
    (cz : (w.objects Z).context = c) (hs : w.scopes c = some pending) :
    (mx.Clear w).1.Get = none ∧
    (mx.Clear w).2.trace =
      w.trace ++ [Call.HasMutationScope c true, Call.RecordFree c X] ∧
    (mx.Clear w).2.scopes c = some (pending ++ [X]) ∧
    (mz.Clear (my.Clear (mx.Clear w).2).2).2.scopes c = some (pending ++ [X, Y, Z]) ∧
    (mz.Clear (my.Clear (mx.Clear w).2).2).2.trace =
      w.trace ++ [Call.HasMutationScope c true, Call.RecordFree c X,
                  Call.HasMutationScope c true, Call.RecordFree c Y,
                  Call.HasMutationScope c true, Call.RecordFree c Z] ∧
    ((mz.Clear (my.Clear (mx.Clear w).2).2).2.trace.drop w.trace.length).filter
      Call.isFree = [] := by
  subst cx
  have e1 := Clear_of_scope mx w X pending hx hs
  have s1 : (mx.Clear w).2.scopes (w.objects X).context = some (pending ++ [X]) := by
    rw [e1]; simp [RecordFree, World.log, hs]
  have o1 : (mx.Clear w).2.objects = w.objects := Clear_objects mx w
  have e2 := Clear_of_scope my (mx.Clear w).2 Y (pending ++ [X]) hy
    (by rw [o1, cy]; exact s1)
  have s2 : (my.Clear (mx.Clear w).2).2.scopes (w.objects X).context
      = some (pending ++ [X, Y]) := by
    rw [e2]; simp [RecordFree, World.log, o1, cy, s1]
  have o2 : (my.Clear (mx.Clear w).2).2.objects = w.objects := by
    rw [Clear_objects, o1]
  have e3 := Clear_of_scope mz (my.Clear (mx.Clear w).2).2 Z (pending ++ [X, Y]) hz
    (by rw [o2, cz]; exact s2)
  have t1 : (mx.Clear w).2.trace = w.trace ++
      [Call.HasMutationScope (w.objects X).context true,
       Call.RecordFree (w.objects X).context X] := by
    rw [e1]; simp [RecordFree, World.log]
  have t2 : (my.Clear (mx.Clear w).2).2.trace = w.trace ++
      [Call.HasMutationScope (w.objects X).context true,
       Call.RecordFree (w.objects X).context X,
       Call.HasMutationScope (w.objects X).context true,
       Call.RecordFree (w.objects X).context Y] := by
    rw [e2]; simp [RecordFree, World.log, o1, cy, t1]
  have t3 : (mz.Clear (my.Clear (mx.Clear w).2).2).2.trace = w.trace ++
      [Call.HasMutationScope (w.objects X).context true,
       Call.RecordFree (w.objects X).context X,
       Call.HasMutationScope (w.objects X).context true,
       Call.RecordFree (w.objects X).context Y,
       Call.HasMutationScope (w.objects X).context true,
       Call.RecordFree (w.objects X).context Z] := by
    rw [e3]; simp [RecordFree, World.log, o2, cz, t2]
  refine ⟨Clear_raw mx w, t1, s1, ?_, t3, ?_⟩
  · rw [e3]; simp [RecordFree, World.log, o2, cz, s2]
  · rw [t3]; simp [Call.isFree]

theorem Clear_defers_in_order_witness :
    ((exLink 3).Clear ((exLink 2).Clear ((exLink 1).Clear exWorldScope).2).2).2.scopes 0
      = some [1, 2, 3] :=
  (Clear_defers_in_order (exLink 1) (exLink 2) (exLink 3) exWorldScope 1 2 3 0 []
    rfl rfl rfl rfl rfl rfl rfl).2.2.2.1

/-- C10. For every Link: `Initialize(nullptr)` only sets the initialized flag
and leaves target, cached runtime and world unchanged; `Initialize(p)` with `p`
non-null sets the flag, makes `p` the target and `p->runtime()` the cached
runtime, and the only call it issues is `p->MakeOld()`: no `JS_DupValue`, no
free, no `RecordFree`, whatever `p.fresh()` was and whatever target the Link
held; `p.fresh()` is false afterwards and the pending frees are unchanged. -/
theorem Initialize_effect (m : Member) (w : World) (a : Nat) :
    m.Initialize w none = ({ m with inited_ := true }, w) ∧
    (m.Initialize w (some a)).1 =
      { raw_ := some a, runtime_ := (w.objects a).runtime, inited_ := true } ∧
    (m.Initialize w (some a)).2.trace = w.trace ++ [Call.MakeOld a] ∧
    ((m.Initialize w (some a)).2.objects a).fresh = false ∧
    (m.Initialize w (some a)).2.objects =
      (fun q => if q = a then { w.objects q with fresh := false } else w.objects q) ∧
    (m.Initialize w (some a)).2.scopes = w.scopes := by
  simp [Member.Initialize, MakeOld]

/-- C8, as the code has it. An assignment of a raw pointer (null or not) or
of a Link (copy or move, from another Link or from itself) succeeds exactly
when the initialized flag of the assigned Link is true: it hits
`assert(inited_)` on every uninitialized Link and on no initialized one. The
assignment of `nullptr` (`operator=(std::nullptr_t)`) only runs `Clear()` and
never hits the assertion. -/
theorem assign_succeeds_iff_inited (links : Nat → Member) (self other : Nat) (w : World)
    (p : Nat) :
    ((links self).assign_ptr w (some p)).isSome = (links self).inited_ ∧
    ((links self).assign_ptr w none).isSome = (links self).inited_ ∧
    (Member.assign_copy links self other w).isSome = (links self).inited_ ∧
    (Member.assign_move links self other w).isSome = (links self).inited_ ∧
    (links self).assign_nullptr w = some ((links self).Clear w) := by
  have key : ∀ (m : Member) (q : Option Nat), (m.assign_ptr w q).isSome = m.inited_ := by
    intro m q
    cases hi : m.inited_ with
    | false =>
      have hc : (m.Clear w).1.inited_ = false := by rw [Clear_inited, hi]
      rw [assign_ptr_eq, SetRaw_uninit _ _ _ hc]
      rfl
    | true =>
      have hc : (m.Clear w).1.inited_ = true := by rw [Clear_inited, hi]
      rw [assign_ptr_eq]
      cases q with
      | none => simp [Member.SetRaw, hc]
      | some a => simp [Member.SetRaw, hc]
  refine ⟨key _ _, key _ _, ?_, ?_, rfl⟩
  · rw [← key (links self) (links other).Get]
    unfold Member.assign_copy
    cases (links self).assign_ptr w (links other).Get <;> rfl
  · rw [← key (links self) (links other).Get]
    unfold Member.assign_move
    cases (links self).assign_ptr w (links other).Get <;> rfl

/-- C8 fails as stated: assigning `nullptr` to a default-constructed Link,
whose initialized flag is false, does not fault. -/
theorem uninit_assign_nullptr_no_fault :
    Member.default_ctor.inited_ = false ∧
    (Member.default_ctor.assign_nullptr exWorld).isSome = true ∧
    (Member.default_ctor.assign_ptr exWorld none).isSome = false := by
  refine ⟨rfl, rfl, rfl⟩

/-- C2 (freshness consumed once). For every initialised Link and non-null
`p`, `SetRaw(p)` succeeds and makes `p` the target; its calls are `fresh()`
and `MakeOld()` alone when `p` is fresh, and `fresh()`, one `JS_DupValue` on
`p`'s context and value, and `MakeOld()` when `p` is not fresh; `p.fresh()` is
false afterwards. Consequently, for a fresh object `O`: a first Link taking
`O` (by `SetRaw` on any initialised Link, by the constructor, or by
`operator=(T*)` on an initialised Link without a target) leaves the engine
reference count of `O`'s value unchanged, and a second Link taking `O` raises
it by exactly one. -/
theorem SetRaw_consumes_freshness (m A B : Member) (w : World) (p O : Nat)
    (hm : m.inited_ = true) (hA : A.inited_ = true) (hB : B.inited_ = true) :
    (∃ m1 w1, m.SetRaw w (some p) = some (m1, w1) ∧ m1.Get = some p ∧
      w1.trace = w.trace ++
        (if (w.objects p).fresh = true then [Call.fresh p true, Call.MakeOld p]
         else [Call.fresh p false,
               Call.JS_DupValue (w.objects p).ctx (w.objects p).jsObject,
               Call.MakeOld p]) ∧
      (w1.objects p).fresh = false) ∧
    ((w.objects O).fresh = true → ∃ A1 w1 B1 w2 c1 c2,
      A.SetRaw w (some O) = some (A1, w1) ∧ B.SetRaw w1 (some O) = some (B1, w2) ∧
      A1.Get = some O ∧ B1.Get = some O ∧
      w1.trace = w.trace ++ c1 ∧ w2.trace = w1.trace ++ c2 ∧
      refcountDelta (w.objects O).jsObject c1 = 0 ∧
      refcountDelta (w.objects O).jsObject c2 = 1 ∧
      (w2.objects O).fresh = false) ∧
    ((w.objects O).fresh = true → ∃ A1 w1 B1 w2 c1 c2,
      Member.ctor (some O) w = some (A1, w1) ∧ Member.ctor (some O) w1 = some (B1, w2) ∧
      A1.Get = some O ∧ B1.Get = some O ∧
      w1.trace = w.trace ++ c1 ∧ w2.trace = w1.trace ++ c2 ∧
      refcountDelta (w.objects O).jsObject c1 = 0 ∧
      refcountDelta (w.objects O).jsObject c2 = 1 ∧
      (w2.objects O).fresh = false) ∧
    ((w.objects O).fresh = true → A.Get = none → B.Get = none → ∃ A1 w1 B1 w2 c1 c2,
      A.assign_ptr w (some O) = some (A1, w1) ∧ B.assign_ptr w1 (some O) = some (B1, w2) ∧
      A1.Get = some O ∧ B1.Get = some O ∧
      w1.trace = w.trace ++ c1 ∧ w2.trace = w1.trace ++ c2 ∧
      refcountDelta (w.objects O).jsObject c1 = 0 ∧
      refcountDelta (w.objects O).jsObject c2 = 1 ∧
      (w2.objects O).fresh = false) := by
  have two : (w.objects O).fresh = true → ∀ A B : Member, A.inited_ = true →
      B.inited_ = true →
      ∃ A1 w1 B1 w2 c1 c2,
        A.SetRaw w (some O) = some (A1, w1) ∧ B.SetRaw w1 (some O) = some (B1, w2) ∧
        A1.Get = some O ∧ B1.Get = some O ∧
        w1.trace = w.trace ++ c1 ∧ w2.trace = w1.trace ++ c2 ∧
        refcountDelta (w.objects O).jsObject c1 = 0 ∧
        refcountDelta (w.objects O).jsObject c2 = 1 ∧
        (w2.objects O).fresh = false := by
    intro hO A B hA hB
    have hf1 : ((MakeOld (w.log (Call.fresh O true)) O).objects O).fresh = false := by
      simp [MakeOld, World.log]
    refine ⟨_, _, _, _, [Call.fresh O true, Call.MakeOld O],
      [Call.fresh O false, Call.JS_DupValue (w.objects O).ctx (w.objects O).jsObject,
       Call.MakeOld O],
      SetRaw_fresh A w O hA hO, SetRaw_old B _ O hB hf1, rfl, rfl, ?_, ?_, ?_, ?_, ?_⟩
    · simp [MakeOld, World.log]
    · simp [MakeOld, World.log]
    · simp [refcountDelta, Call.refcountDelta]
    · simp [refcountDelta, Call.refcountDelta]
    · simp [MakeOld, World.log]
  have viaAssign : (w.objects O).fresh = true → A.Get = none → B.Get = none →
      ∃ A1 w1 B1 w2 c1 c2,
      A.assign_ptr w (some O) = some (A1, w1) ∧ B.assign_ptr w1 (some O) = some (B1, w2) ∧
      A1.Get = some O ∧ B1.Get = some O ∧
      w1.trace = w.trace ++ c1 ∧ w2.trace = w1.trace ++ c2 ∧
      refcountDelta (w.objects O).jsObject c1 = 0 ∧
      refcountDelta (w.objects O).jsObject c2 = 1 ∧
      (w2.objects O).fresh = false := by
    intro hO eA eB
    obtain ⟨A1, w1, B1, w2, c1, c2, h1, h2, rest⟩ := two hO A B hA hB
    refine ⟨A1, w1, B1, w2, c1, c2, ?_, ?_, rest⟩
    · rw [assign_ptr_eq, Clear_of_null A w eA]; exact h1
    · rw [assign_ptr_eq, Clear_of_null B w1 eB]; exact h2
  refine ⟨?_, fun hO => two hO A B hA hB, fun hO => two hO _ _ rfl rfl, viaAssign⟩
  cases hf : (w.objects p).fresh with
  | true =>
    refine ⟨_, _, SetRaw_fresh m w p hm hf, rfl, ?_, ?_⟩
    · simp [MakeOld, World.log]
    · simp [MakeOld, World.log]
  | false =>
    refine ⟨_, _, SetRaw_old m w p hm hf, rfl, ?_, ?_⟩
    · simp [MakeOld, World.log]
    · simp [MakeOld, World.log]

theorem SetRaw_consumes_freshness_witness :
    (∃ m1 w1, exEmpty.SetRaw exWorldOld (some 1) = some (m1, w1) ∧ m1.Get = some 1 ∧
      w1.trace = exWorldOld.trace ++
        (if (exWorldOld.objects 1).fresh = true then [Call.fresh 1 true, Call.MakeOld 1]
         else [Call.fresh 1 false,
               Call.JS_DupValue (exWorldOld.objects 1).ctx (exWorldOld.objects 1).jsObject,
               Call.MakeOld 1]) ∧
      (w1.objects 1).fresh = false) ∧
    (∃ A1 w1 B1 w2 c1 c2,
      Member.ctor (some 1) exWorld = some (A1, w1) ∧
      Member.ctor (some 1) w1 = some (B1, w2) ∧
      A1.Get = some 1 ∧ B1.Get = some 1 ∧
      w1.trace = exWorld.trace ++ c1 ∧ w2.trace = w1.trace ++ c2 ∧
      refcountDelta (exWorld.objects 1).jsObject c1 = 0 ∧
      refcountDelta (exWorld.objects 1).jsObject c2 = 1 ∧
      (w2.objects 1).fresh = false) :=
  ⟨(SetRaw_consumes_freshness exEmpty exEmpty exEmpty exWorldOld 1 1 rfl rfl rfl).1,
   (SetRaw_consumes_freshness exEmpty exEmpty exEmpty exWorld 1 1 rfl rfl rfl).2.2.1 rfl⟩

/-- C6 (phase-sensitive destruction). For every Link with a non-null target
`p` whose cached runtime `rt` is reported in the decrement phase, the
destructor succeeds and adds to the trace exactly the phase query and one
`JS_FreeValueRT` on `rt` and `p`'s value: no `JS_FreeValue`, no
`HasMutationScope` query and no `RecordFree`, and the pending frees are
untouched, whether or not a mutation scope is active. -/
theorem dtor_in_decref_phase (m : Member) (w : World) (p rt : Nat)
    (h : m.raw_ = some p) (hr : m.runtime_ = some rt)
    (hp : w.phase rt = JSGCPhaseEnum.JS_GC_PHASE_DECREF) :
    ∃ w1, m.dtor w = some w1 ∧
      w1.trace = w.trace ++
        [Call.JS_GetEnginePhase rt, Call.JS_FreeValueRT rt (w.objects p).jsObject] ∧
      w1.scopes = w.scopes ∧ w1.objects = w.objects := by
  refine ⟨(w.log (Call.JS_GetEnginePhase rt)).log
    (Call.JS_FreeValueRT rt (w.objects p).jsObject), ?_, ?_, rfl, rfl⟩
  · simp only [Member.dtor, h, hr, hp, if_true]
  · simp [World.log]

theorem dtor_in_decref_phase_witness :
    ∃ w1, (exLink 1).dtor { exWorldDecref with scopes := fun _ => some [] } = some w1 ∧
      w1.trace = [] ++ [Call.JS_GetEnginePhase 3, Call.JS_FreeValueRT 3 101] ∧
      w1.scopes = (fun _ => some []) ∧ w1.objects = exWorldDecref.objects :=
  dtor_in_decref_phase (exLink 1) { exWorldDecref with scopes := fun _ => some [] } 1 3
    rfl rfl rfl

/-- C7, as the code has it. For every Link with a non-null target whose
cached runtime `rt` is reported in any phase other than the decrement phase,
the destructor succeeds and the only call it issues is the phase query: it
releases nothing, neither by `JS_FreeValue` or `JS_FreeValueRT` nor through
the mutation scope, which it does not look up; the pending frees are
untouched. -/
theorem dtor_outside_decref_phase (m : Member) (w : World) (p rt : Nat)
    (h : m.raw_ = some p) (hr : m.runtime_ = some rt)
    (hp : w.phase rt ≠ JSGCPhaseEnum.JS_GC_PHASE_DECREF) :
    ∃ w1, m.dtor w = some w1 ∧
      w1.trace = w.trace ++ [Call.JS_GetEnginePhase rt] ∧
      w1.scopes = w.scopes ∧ w1.objects = w.objects := by
  refine ⟨w.log (Call.JS_GetEnginePhase rt), ?_, ?_, rfl, rfl⟩
  · simp only [Member.dtor, h, hr, hp, if_false]
  · simp [World.log]

theorem dtor_outside_decref_phase_witness :
    ∃ w1, (exLink 1).dtor exWorld = some w1 ∧
      w1.trace = exWorld.trace ++ [Call.JS_GetEnginePhase 3] ∧
      w1.scopes = exWorld.scopes ∧ w1.objects = exWorld.objects :=
  dtor_outside_decref_phase (exLink 1) exWorld 1 3 rfl rfl (by decide)

/-- C7 fails as stated: outside the decrement phase, with no mutation scope,
`Clear()` releases the target by `JS_FreeValue` while the destructor issues
no release; with an active scope `Clear()` records the target in the pending
frees while the destructor leaves them empty. -/
theorem dtor_differs_from_Clear :
    exWorld.phase 3 = JSGCPhaseEnum.JS_GC_PHASE_NONE ∧
    ((exLink 1).dtor exWorld).map World.trace = some [Call.JS_GetEnginePhase 3] ∧
    ((exLink 1).Clear exWorld).2.trace =
      [Call.HasMutationScope 0 false, Call.JS_FreeValue 7 101] ∧
    ((exLink 1).dtor exWorldScope).map (fun w => w.scopes 0) = some (some []) ∧
    ((exLink 1).Clear exWorldScope).2.scopes 0 = some [1] := by
  refine ⟨rfl, rfl, rfl, rfl, rfl⟩

/-! ## Assignment between Links -/

theorem setLink_same (links : Nat → Member) (a : Nat) (m : Member) :
    setLink links a m a = m := by
  simp [setLink]

theorem setLink_other (links : Nat → Member) (a b : Nat) (m : Member) (h : b ≠ a) :
    setLink links a m b = links b := by
  simp [setLink, h]

theorem assign_move_eq (links : Nat → Member) (a b : Nat) (w : World) (A1 : Member)
    (w1 : World) (h : (links a).assign_ptr w (links b).Get = some (A1, w1)) :
    Member.assign_move links a b w =
      some (setLink (setLink links a A1) b ((setLink links a A1 b).Clear w1).1,
            ((setLink links a A1 b).Clear w1).2) := by
  simp [Member.assign_move, h]

theorem assign_copy_eq_assign_move (links : Nat → Member) (a b : Nat) (w : World) :
    Member.assign_copy links a b w = Member.assign_move links a b w := rfl

/-- C3, as the code has it, on the body `operator=(other.Get()); other.Clear();`
that is written for both assignments between Links and that runs as the move
assignment `A = std::move(B)`. For every initialised Link `A` and every other
Link `B` (at another address) the assignment succeeds, leaves `B.Get()` null
and `A.Get()` equal to the former `B.Get()`, and changes no third Link. For a
non-null former target `p` of `B`: afterwards exactly one of the two Links
holds `p`; before, one did if `A` did not hold `p` and two did if `A` held
`p` as well. The calls of the assignment change the reference counts the two
Links hold on `p`'s engine value by zero when `A` held no target with that
engine value, and by minus one when it did. Assigning an initialised Link to
itself succeeds and leaves its `Get()` null. -/
theorem assign_move_moves_claim (links : Nat → Member) (a b : Nat) (w : World)
    (hA : (links a).inited_ = true) (hab : a ≠ b) :
    (∃ links1 w1 calls, Member.assign_move links a b w = some (links1, w1) ∧
      (links1 b).Get = none ∧ (links1 a).Get = (links b).Get ∧
      (∀ c, c ≠ a → c ≠ b → links1 c = links c) ∧
      w1.trace = w.trace ++ calls ∧
      ∀ p, (links b).Get = some p →
        claimsOn p [links1 a, links1 b] = 1 ∧
        claimsOn p [links a, links b] = (if (links a).Get = some p then 2 else 1) ∧
        attributable w.valueOf (w.valueOf p) calls =
          -(if (links a).Get.map w.valueOf = some (w.valueOf p) then 1 else 0)) ∧
    (∃ links1 w1, Member.assign_move links a a w = some (links1, w1) ∧
      (links1 a).Get = none) := by
  constructor
  · have hba : b ≠ a := fun h => hab h.symm
    obtain ⟨A1, w1, c1, e, hr, _, t1, v1, a1⟩ :=
      assign_ptr_calls (links a) w (links b).Get hA
    have eB : setLink links a A1 b = links b := setLink_other links a b A1 hba
    obtain ⟨c2, t2, a2⟩ := Clear_calls (links b) w1
    rw [v1] at a2
    have hA1 : (setLink (setLink links a A1) b ((links b).Clear w1).1 a).Get
        = (links b).Get := by
      rw [setLink_other _ b a _ hab, setLink_same]; exact hr
    have hB1 : (setLink (setLink links a A1) b ((links b).Clear w1).1 b).Get = none := by
      rw [setLink_same]; exact Clear_raw (links b) w1
    refine ⟨setLink (setLink links a A1) b ((links b).Clear w1).1, ((links b).Clear w1).2,
      c1 ++ c2, ?_, hB1, hA1, ?_, ?_, ?_⟩
    · rw [assign_move_eq links a b w A1 w1 e, eB]
    · intro c hca hcb
      rw [setLink_other _ b c _ hcb, setLink_other _ a c _ hca]
    · rw [t2, t1, List.append_assoc]
    · intro p hp
      have hB : (links b).raw_ = some p := hp
      refine ⟨?_, ?_, ?_⟩
      · simp [claimsOn, List.countP_cons, hA1, hB1, hp]
      · by_cases hAp : (links a).Get = some p
        · simp [claimsOn, List.countP_cons, hAp, hp]
        · simp [claimsOn, List.countP_cons, hAp, hp]
      · rw [attributable_append, a1, a2]
        simp [Member.Get, hB]
  · obtain ⟨A1, w1, c1, e, _, _, _, _, _⟩ :=
      assign_ptr_calls (links a) w (links a).Get hA
    refine ⟨_, _, assign_move_eq links a a w A1 w1 e, ?_⟩
    rw [setLink_same]
    exact Clear_raw _ w1

theorem assign_move_moves_claim_witness :
    (twoLinks (exLink 2) (exLink 1) 0).inited_ = true ∧
    ∃ links1 w1, Member.assign_move (twoLinks (exLink 2) (exLink 1)) 0 1 exWorldOld
        = some (links1, w1) ∧
      (links1 1).Get = none ∧ (links1 0).Get = some 1 :=
  ⟨rfl,
   match (assign_move_moves_claim (twoLinks (exLink 2) (exLink 1)) 0 1 exWorldOld rfl
      (by decide)).1 with
   | ⟨links1, w1, _, e, hb, ha, _⟩ => ⟨links1, w1, e, hb, ha⟩⟩

/-- C3 fails as stated: two Links, at the addresses `0` and `1`, hold the same
target `1`. Before the assignment of the second to the first two Links claim
that target, afterwards only one does; the calls issued are the first Link's
release, its new increment, and the second Link's release. -/
theorem assign_move_same_target :
    (twoLinks (exLink 1) (exLink 1) 0).inited_ = true ∧
    claimsOn 1 [twoLinks (exLink 1) (exLink 1) 0, twoLinks (exLink 1) (exLink 1) 1] = 2 ∧
    (Member.assign_move (twoLinks (exLink 1) (exLink 1)) 0 1 exWorldOld).map
        (fun r => ((r.1 0).Get, (r.1 1).Get, claimsOn 1 [r.1 0, r.1 1], r.2.trace)) =
      some (some 1, none, 1,
        [Call.HasMutationScope 0 false, Call.JS_FreeValue 7 101,
         Call.fresh 1 false, Call.JS_DupValue 7 101, Call.MakeOld 1,
         Call.HasMutationScope 0 false, Call.JS_FreeValue 7 101]) := by
  refine ⟨rfl, rfl, rfl⟩

/-! ## Invariants over sequences of operations -/

theorem MakeOld_runtimeOf (w : World) (p : Nat) : (MakeOld w p).runtimeOf = w.runtimeOf := by
  funext q
  simp only [World.runtimeOf, MakeOld]
  split <;> rfl

theorem Clear_runtimeOf (m : Member) (w : World) : (m.Clear w).2.runtimeOf = w.runtimeOf := by
  funext q
  simp only [World.runtimeOf, Clear_objects]

theorem SetRaw_runtime (m : Member) (w : World) (p : Option Nat) (m1 : Member) (w1 : World)
    (h : m.SetRaw w p = some (m1, w1)) :
    w1.runtimeOf = w.runtimeOf ∧ RuntimeCached m1 w1 := by
  have hi : m.inited_ = true := by
    cases hi : m.inited_ with
    | true => rfl
    | false => rw [SetRaw_uninit m w p hi] at h; cases h
  cases p with
  | none =>
    rw [SetRaw_null m w hi] at h
    cases h
    exact ⟨rfl, fun q hq => by cases hq⟩
  | some a =>
    cases hf : (w.objects a).fresh with
    | true =>
      rw [SetRaw_fresh m w a hi hf] at h
      cases h
      refine ⟨by rw [MakeOld_runtimeOf]; rfl, fun q hq => ?_⟩
      cases hq
      rw [MakeOld_runtimeOf]; rfl
    | false =>
      rw [SetRaw_old m w a hi hf] at h
      cases h
      refine ⟨by rw [MakeOld_runtimeOf]; rfl, fun q hq => ?_⟩
      cases hq
      rw [MakeOld_runtimeOf]; rfl

theorem assign_ptr_runtime (m : Member) (w : World) (p : Option Nat) (m1 : Member)
    (w1 : World) (h : m.assign_ptr w p = some (m1, w1)) :
    w1.runtimeOf = w.runtimeOf ∧ RuntimeCached m1 w1 := by
  rw [assign_ptr_eq] at h
  obtain ⟨hw, hc⟩ := SetRaw_runtime _ _ _ _ _ h
  exact ⟨by rw [hw, Clear_runtimeOf], hc⟩

theorem Clear_RuntimeCached (m : Member) (w : World) : RuntimeCached (m.Clear w).1 (m.Clear w).2 := by
  intro q hq
  have : (m.Clear w).1.raw_ = none := Clear_raw m w
  rw [Member.Get, this] at hq
  cases hq

theorem RuntimeCached_of_runtimeOf (m : Member) (w w1 : World)
    (h : w1.runtimeOf = w.runtimeOf) (hc : RuntimeCached m w) : RuntimeCached m w1 := by
  intro q hq
  rw [h]
  exact hc q hq

/-- An assignment between Links keeps the cached runtime of every Link of the
store in step with its target. -/
theorem assign_move_RuntimeCached (links : Nat → Member) (a b c : Nat) (w : World)
    (links1 : Nat → Member) (w1 : World) (hc : RuntimeCached (links c) w)
    (h : Member.assign_move links a b w = some (links1, w1)) :
    RuntimeCached (links1 c) w1 := by
  cases e : (links a).assign_ptr w (links b).Get with
  | none => simp [Member.assign_move, e] at h
  | some r =>
    obtain ⟨A1, w2⟩ := r
    rw [assign_move_eq links a b w A1 w2 e] at h
    simp only [Option.some.injEq, Prod.mk.injEq] at h
    obtain ⟨rfl, rfl⟩ := h
    obtain ⟨hw, hA1⟩ := assign_ptr_runtime (links a) w (links b).Get A1 w2 e
    have hw1 : ((setLink links a A1 b).Clear w2).2.runtimeOf = w.runtimeOf := by
      rw [Clear_runtimeOf, hw]
    by_cases hcb : c = b
    · subst hcb
      rw [setLink_same]
      exact Clear_RuntimeCached _ w2
    · rw [setLink_other _ b c _ hcb]
      by_cases hca : c = a
      · subst hca
        rw [setLink_same]
        exact RuntimeCached_of_runtimeOf A1 w2 _ (Clear_runtimeOf _ w2) hA1
      · rw [setLink_other _ a c _ hca]
        exact RuntimeCached_of_runtimeOf (links c) w _ hw1 hc

theorem map_assign_move_RuntimeCached (links : Nat → Member) (a b c : Nat) (w : World)
    (m1 : Member) (w1 : World) (hc : RuntimeCached (links c) w)
    (h : (Member.assign_move links a b w).map (fun r => (r.1 c, r.2)) = some (m1, w1)) :
    RuntimeCached m1 w1 := by
  cases e : Member.assign_move links a b w with
  | none => rw [e] at h; cases h
  | some r =>
    obtain ⟨links1, w2⟩ := r
    rw [e] at h
    simp only [Option.map_some', Option.some.injEq, Prod.mk.injEq] at h
    obtain ⟨rfl, rfl⟩ := h
    exact assign_move_RuntimeCached links a b c w links1 w2 hc e

theorem apply_RuntimeCached (op : LinkOp) (m : Member) (w : World) (m1 : Member) (w1 : World)
    (hc : RuntimeCached m w) (h : op.apply m w = some (m1, w1)) : RuntimeCached m1 w1 := by
  cases op with
  | Initialize p =>
    simp only [LinkOp.apply, Option.some.injEq] at h
    cases p with
    | none =>
      simp only [Member.Initialize, Prod.mk.injEq] at h
      obtain ⟨rfl, rfl⟩ := h
      exact hc
    | some a =>
      simp only [Member.Initialize, Prod.mk.injEq] at h
      obtain ⟨rfl, rfl⟩ := h
      intro q hq
      cases hq
      rw [MakeOld_runtimeOf]; rfl
  | assign_ptr p => exact (assign_ptr_runtime m w p m1 w1 h).2
  | assign_nullptr =>
    simp only [LinkOp.apply, Member.assign_nullptr, Option.some.injEq] at h
    have := Clear_RuntimeCached m w
    rw [h] at this
    exact this
  | assign_copy other =>
    simp only [LinkOp.apply, assign_copy_eq_assign_move] at h
    exact map_assign_move_RuntimeCached _ 0 1 0 w m1 w1 hc h
  | assign_move other =>
    simp only [LinkOp.apply] at h
    exact map_assign_move_RuntimeCached _ 0 1 0 w m1 w1 hc h
  | assigned_to target =>
    simp only [LinkOp.apply] at h
    exact map_assign_move_RuntimeCached _ 1 0 0 w m1 w1 hc h
  | assign_self =>
    simp only [LinkOp.apply] at h
    exact map_assign_move_RuntimeCached _ 0 0 0 w m1 w1 hc h
  | Clear =>
    simp only [LinkOp.apply, Option.some.injEq] at h
    have := Clear_RuntimeCached m w
    rw [h] at this
    exact this

theorem runOps_RuntimeCached (ops : List LinkOp) (m : Member) (w : World) (m1 : Member)
    (w1 : World) (hc : RuntimeCached m w) (h : runOps ops m w = some (m1, w1)) :
    RuntimeCached m1 w1 := by
  induction ops generalizing m w with
  | nil =>
    simp only [runOps, Option.some.injEq, Prod.mk.injEq] at h
    obtain ⟨rfl, rfl⟩ := h
    exact hc
  | cons op rest ih =>
    simp only [runOps] at h
    cases e : op.apply m w with
    | none => rw [e] at h; cases h
    | some r =>
      obtain ⟨m2, w2⟩ := r
      rw [e] at h
      exact ih m2 w2 (apply_RuntimeCached op m w m2 w2 hc e) h

/-- C9, as the code has it. In every state reached from a default-constructed
Link, or from a Link built by `Member(T*)`, through `Initialize`, raw-pointer,
null and Link assignments (in either role, and to itself) and `Clear()`, the
cached runtime equals the target's `runtime()` whenever the target is
non-null. When the target is null the cached runtime need not be `nullptr`:
`Clear()` leaves the cached runtime unchanged. -/
theorem cached_runtime_is_target_runtime (ptr : Option Nat) (w0 : World) (m0 : Member)
    (w1 : World) (ops : List LinkOp) (m : Member) (w : World)
    (h0 : (m0 = Member.default_ctor ∧ w1 = w0) ∨ Member.ctor ptr w0 = some (m0, w1))
    (h : runOps ops m0 w1 = some (m, w)) :
    (∀ q, m.Get = some q → m.runtime_ = (w.objects q).runtime) ∧
    (m.Clear w).1.runtime_ = m.runtime_ := by
  refine ⟨?_, Clear_runtime m w⟩
  apply runOps_RuntimeCached ops m0 w1 m w ?_ h
  rcases h0 with ⟨rfl, _⟩ | h0
  · intro q hq; cases hq
  · exact (SetRaw_runtime _ _ _ _ _ h0).2

theorem cached_runtime_is_target_runtime_witness :
    (∀ q, (exLink 2).Get = some q →
      (exLink 2).runtime_ = ((MakeOld exWorld 2).objects q).runtime) ∧
    ((exLink 2).Clear (MakeOld exWorld 2)).1.runtime_ = (exLink 2).runtime_ :=
  cached_runtime_is_target_runtime none exWorld Member.default_ctor exWorld
    [LinkOp.Initialize (some 2)] (exLink 2) (MakeOld exWorld 2) (Or.inl ⟨rfl, rfl⟩) rfl

/-- C9 fails as stated: after `Member(p)` and `Clear()` the target is null
and the cached runtime is still `p`'s runtime, not `nullptr`. -/
theorem cached_runtime_survives_Clear :
    ((Member.ctor (some 1) exWorld).bind (fun r => runOps [LinkOp.Clear] r.1 r.2)).map
        (fun r => (r.1.Get, r.1.runtime_)) = some (none, some 3) := by
  rfl

theorem apply_SingleClaim (value : Nat → Nat) (before : List Call) (op : LinkOp)
    (hop : op.isRawAssignOrClear = true) (m : Member) (w : World) (calls : List Call)
    (hs : SingleClaim value before m w calls) :
    ∃ m1 w1 calls1, op.apply m w = some (m1, w1) ∧ SingleClaim value before m1 w1 calls1 := by
  obtain ⟨hi, ht, hv, ha⟩ := hs
  have viaClear : ∃ calls1, SingleClaim value before (m.Clear w).1 (m.Clear w).2 calls1 := by
    obtain ⟨c, tc, ac⟩ := Clear_calls m w
    rw [hv] at ac
    refine ⟨calls ++ c, by rw [Clear_inited, hi], ?_, by rw [Clear_valueOf, hv], ?_⟩
    · rw [tc, ht, List.append_assoc]
    · intro v
      have hn : (m.Clear w).1.Get = none := Clear_raw m w
      rw [attributable_append, ha v, ac v, hn]
      simp [Member.Get]
  cases op with
  | assign_ptr p =>
    obtain ⟨m1, w1, c, e, hr, hi1, t1, v1, a1⟩ := assign_ptr_calls m w p hi
    rw [hv] at a1 v1
    refine ⟨m1, w1, calls ++ c, e, hi1, ?_, v1, ?_⟩
    · rw [t1, ht, List.append_assoc]
    · intro v
      rw [attributable_append, ha v, a1 v]
      simp [Member.Get, hr]
  | assign_nullptr =>
    obtain ⟨c, hc⟩ := viaClear
    exact ⟨_, _, c, rfl, hc⟩
  | Clear =>
    obtain ⟨c, hc⟩ := viaClear
    exact ⟨_, _, c, rfl, hc⟩
  | Initialize p => cases hop
  | assign_copy other => cases hop
  | assign_move other => cases hop
  | assigned_to target => cases hop
  | assign_self => cases hop

theorem runOps_SingleClaim (value : Nat → Nat) (before : List Call) (ops : List LinkOp)
    (hops : ∀ op ∈ ops, op.isRawAssignOrClear = true) (m : Member) (w : World)
    (calls : List Call) (hs : SingleClaim value before m w calls) :
    ∃ m1 w1 calls1, runOps ops m w = some (m1, w1) ∧ SingleClaim value before m1 w1 calls1 := by
  induction ops generalizing m w calls with
  | nil => exact ⟨m, w, calls, rfl, hs⟩
  | cons op rest ih =>
    obtain ⟨m1, w1, c1, e, h1⟩ :=
      apply_SingleClaim value before op (hops op (List.mem_cons_self _ _)) m w calls hs
    obtain ⟨m2, w2, c2, e2, h2⟩ :=
      ih (fun o ho => hops o (List.mem_cons_of_mem _ ho)) m1 w1 c1 h1
    refine ⟨m2, w2, c2, ?_, h2⟩
    simp only [runOps, e]
    exact e2

/-- C1 (single claim). Build a Link by `Member(ptr)` and apply any finite
sequence of raw-pointer assignments, null assignments and `Clear()` calls.
The construction and every step succeed, and after every step (after the
first `k` operations, for every `k`) the reference counts attributable to the
Link, counted over all the calls it has issued since its construction as
consumed fresh references plus `JS_DupValue`s minus releases issued directly
or handed to the mutation scope, are exactly one on the value of its target
when `Get()` is non-null and zero on every other value, hence zero everywhere
when `Get()` is null. -/
theorem single_claim_invariant (ptr : Option Nat) (w0 : World) (ops : List LinkOp)
    (hops : ∀ op ∈ ops, op.isRawAssignOrClear = true) (k : Nat) :
    ∃ m0 w1 m w calls, Member.ctor ptr w0 = some (m0, w1) ∧
      runOps (ops.take k) m0 w1 = some (m, w) ∧
      w.trace = w0.trace ++ calls ∧
      ∀ v, attributable w.valueOf v calls =
        (if m.Get.map w.valueOf = some v then 1 else 0) := by
  obtain ⟨m0, w1, c0, e0, hr0, hi0, t0, v0, a0⟩ :=
    SetRaw_calls { Member.default_ctor with inited_ := true } w0 ptr rfl
  have hs0 : SingleClaim w0.valueOf w0.trace m0 w1 c0 := by
    refine ⟨hi0, t0, v0, ?_⟩
    intro v
    rw [a0 v, Member.Get, hr0]
  obtain ⟨m, w, calls, e, _, ht, hv, ha⟩ :=
    runOps_SingleClaim w0.valueOf w0.trace (ops.take k)
      (fun o ho => hops o (List.mem_of_mem_take ho)) m0 w1 c0 hs0
  refine ⟨m0, w1, m, w, calls, e0, e, ht, ?_⟩
  rw [hv]
  exact ha

theorem single_claim_invariant_witness :
    ∃ m0 w1 m w calls, Member.ctor (some 1) exWorld = some (m0, w1) ∧
      runOps ([LinkOp.assign_ptr (some 2), LinkOp.Clear, LinkOp.assign_nullptr].take 2)
        m0 w1 = some (m, w) ∧
      w.trace = exWorld.trace ++ calls ∧
      ∀ v, attributable w.valueOf v calls =
        (if m.Get.map w.valueOf = some v then 1 else 0) :=
  single_claim_invariant (some 1) exWorld
    [LinkOp.assign_ptr (some 2), LinkOp.Clear, LinkOp.assign_nullptr]
    (by decide) 2

end kraken
